import Mathlib

/-!
# Verification of the `btc_embedded` session/transport layer

Shallow embedding of the core session/transport logic of `btc_embedded/api.py`
(class `EPRestApi`) together with `is_port_in_use` from `btc_embedded/helpers.py`,
and proofs of the specified properties.

Conventions of the embedding:

* HTTP traffic is modelled by oracles: a progress poll is a list of status
  codes that successive `GET progress` requests return, preference pushes and
  cancellation requests are Boolean/`Except`-valued functions, message fetches
  return either a plain-string body or a list of message objects.
* Python exceptions are modelled with `Except`; a caught exception corresponds
  to matching on `.error`.
* Wall-clock time is modelled by a counter that advances by 2 seconds at each
  `time.sleep(2)` inside the polling loop (polls themselves are instantaneous),
  so `time.time() - start_time` is the counter value.
* Strings handed to `urllib.parse.quote/unquote` are modelled as lists of
  bytes (`List Nat`), matching Python's byte-level percent-encoding; ASCII
  text is converted with `strBytes`.
-/

namespace BtcEmbedded

/-! ## Python string comparison

The source drives version-gated protocol branching by plain Python string
comparison of version tokens (`self.version < '25.3p0'`), and the message
sort fallback sorts by the raw `date` strings.  Python compares strings
lexicographically by code point, which `pyLtL`/`pyLt` model directly. -/

/-- Lexicographic code-point comparison of character lists (Python `<`). -/
def pyLtL : List Char → List Char → Bool
  | _, [] => false
  | [], _ :: _ => true
  | a :: as, b :: bs =>
    if a.toNat < b.toNat then true
    else if b.toNat < a.toNat then false
    else pyLtL as bs

/-- Python string `<`. -/
def pyLt (a b : String) : Bool := pyLtL a.toList b.toList

/-- Python string `<=` (for a total strict order, `a <= b ↔ ¬ b < a`);
this is the comparison a Python ascending sort by a string key realizes. -/
def pyLe (a b : String) : Bool := !(pyLt b a)

/-! ## Long-running job poller (`_check_long_running` / `_poll_long_running`) -/

/-- Model of a `requests.Response` as far as `_check_long_running` inspects it:
the HTTP status code, the optional `jobID` field of the JSON body
(`response.json()['jobID']`, `none` when the body is not JSON or has no such
key, in which case the `except ... pass` branch is taken), and whether the
body contains one of the `EXCLUDED_ERROR_MESSAGES` (the benign allow-list). -/
structure Resp where
  status : Nat
  jobID : Option String
  benign : Bool
deriving Repr, DecidableEq

/-- Mutable state of the polling loop in `_check_long_running`:
`clock` is `time.time() - start_time` in seconds, `cancelled` the guard flag,
`progressReqs` the number of progress requests issued so far, `cancelReqs` the
number of cancellation requests issued so far, and `warnings` the number of
"Timeout will not be considered" warnings logged. -/
@[ext]
structure LoopState where
  clock : Nat
  cancelled : Bool
  progressReqs : Nat
  cancelReqs : Nat
  warnings : Nat
deriving Repr, DecidableEq

/-- One iteration of the `while response.status_code == 202` loop body of
`_check_long_running`, state part: `time.sleep(2)` advances the clock, the
poll bumps `progressReqs`, and then the timeout guard runs
(`if not timeout is None and time.time()-start_time > timeout and not cancelled`).
On a fired guard a cancellation request is issued; `cancelOk n` tells whether
the `n`-th cancellation request (0-indexed) succeeds.  The `cancelled` flag is
set only on success: when `self.get_req("progress/cancel", ...)` raises, the
`except` branch merely logs a warning and leaves the flag unset. -/
def pollStep (cancelOk : Nat → Bool) (timeout : Option Nat) (st : LoopState) :
    LoopState :=
  let st1 : LoopState :=
    { st with clock := st.clock + 2, progressReqs := st.progressReqs + 1 }
  if ((match timeout with
      | some t => decide (st1.clock > t)
      | none => false) && !st1.cancelled) = true then
    { st1 with cancelReqs := st1.cancelReqs + 1,
               cancelled := cancelOk st1.cancelReqs }
  else st1

/-- The `while response.status_code == 202` loop of `_check_long_running`.
`pending` is the stream of status codes that successive progress polls return;
the result is `none` when the stream is exhausted while the status is still
202 (the modelled trace is too short).  Each iteration sleeps, polls and runs
the guard (`pollStep`), then the loop condition re-checks the new status. -/
def pollLoop (cancelOk : Nat → Bool) (timeout : Option Nat) :
    Nat → LoopState → List Nat → Option (Nat × LoopState)
  | cur, st, pending =>
    if cur = 202 then
      match pending with
      | [] => none
      | next :: rest =>
        pollLoop cancelOk timeout next (pollStep cancelOk timeout st) rest
    else
      some (cur, st)

theorem pollLoop_nil (cancelOk : Nat → Bool) (timeout : Option Nat)
    (cur : Nat) (st : LoopState) :
    pollLoop cancelOk timeout cur st [] =
      if cur = 202 then none else some (cur, st) := by
  rw [pollLoop.eq_def]

theorem pollLoop_cons (cancelOk : Nat → Bool) (timeout : Option Nat)
    (cur : Nat) (st : LoopState) (next : Nat) (rest : List Nat) :
    pollLoop cancelOk timeout cur st (next :: rest) =
      if cur = 202 then
        pollLoop cancelOk timeout next (pollStep cancelOk timeout st) rest
      else some (cur, st) := by
  rw [pollLoop.eq_def]

theorem pollLoop_not202 (cancelOk : Nat → Bool) (timeout : Option Nat)
    (cur : Nat) (hcur : cur ≠ 202) (st : LoopState) (pending : List Nat) :
    pollLoop cancelOk timeout cur st pending = some (cur, st) := by
  rw [pollLoop.eq_def]
  simp [hcur]

/-- `_check_long_running(response, urlappendix, payload, timeout)` for an
engine whose negotiated version is `version`.

* If a timeout is given and `version < '25.3p0'` (Python string comparison,
  modelled by `pyLt`), a warning is logged and the timeout is dropped.
* If the response is not ok (`status >= 400`) and its body matches none of the
  benign `EXCLUDED_ERROR_MESSAGES`, `_handle_error` raises (`.error ()`).
* Otherwise, if the body carries a `jobID`, one progress poll is issued
  immediately and then the 202-loop runs; if not, `response.json()['jobID']`
  raises, the exception is swallowed and the original response is returned. -/
def check_long_running (version : String) (timeout0 : Option Nat)
    (cancelOk : Nat → Bool) (resp : Resp) (progress : List Nat) :
    Except Unit (Option (Nat × LoopState)) :=
  let warn : Nat := if timeout0.isSome ∧ pyLt version "25.3p0" = true then 1 else 0
  let timeout := if timeout0.isSome ∧ pyLt version "25.3p0" = true then none else timeout0
  if resp.status ≥ 400 ∧ ¬ resp.benign then
    .error ()
  else
    match resp.jobID with
    | none =>
      .ok (some (resp.status,
        { clock := 0, cancelled := false, progressReqs := 0, cancelReqs := 0,
          warnings := warn }))
    | some _ =>
      match progress with
      | [] => .ok none
      | first :: rest =>
        .ok (pollLoop cancelOk timeout first
          { clock := 0, cancelled := false, progressReqs := 1, cancelReqs := 0,
            warnings := warn } rest)

/-- Number of cancellation requests recorded in a `check_long_running` result. -/
def cancelCount : Except Unit (Option (Nat × LoopState)) → Nat
  | .ok (some (_, st)) => st.cancelReqs
  | _ => 0

/-- Final status recorded in a `check_long_running` result. -/
def finalStatus : Except Unit (Option (Nat × LoopState)) → Option Nat
  | .ok (some (s, _)) => some s
  | _ => none

/-- Bump the warning counter of a `check_long_running` result by one. -/
def bumpWarn : Except Unit (Option (Nat × LoopState)) →
    Except Unit (Option (Nat × LoopState))
  | .ok (some (s, st)) => .ok (some (s, { st with warnings := st.warnings + 1 }))
  | r => r

/-- With no timeout the guard never fires: a step just advances the clock and
the request counter. -/
theorem pollStep_none (cancelOk : Nat → Bool) (st : LoopState) :
    pollStep cancelOk none st =
      { st with clock := st.clock + 2, progressReqs := st.progressReqs + 1 } := by
  simp [pollStep]

theorem pollLoop_none_spec (cancelOk : Nat → Bool) (post : List Nat) (s : Nat)
    (hs : s ≠ 202) (pre : List Nat) (hpre : ∀ x ∈ pre, x = 202) (st : LoopState) :
    pollLoop cancelOk none 202 st (pre ++ s :: post) =
      some (s, { st with clock := st.clock + 2 * (pre.length + 1),
                         progressReqs := st.progressReqs + (pre.length + 1) }) := by
  induction pre generalizing st with
  | nil =>
    rw [List.nil_append, pollLoop_cons, if_pos rfl, pollLoop_not202 _ _ _ hs,
      pollStep_none]
    simp
  | cons a tl ih =>
    have ha : a = 202 := hpre a (by simp)
    rw [List.cons_append, pollLoop_cons, if_pos rfl, ha,
      ih (fun x hx => hpre x (by simp [hx])), pollStep_none]
    simp only [Option.some.injEq, Prod.mk.injEq, true_and, List.length_cons]
    congr 1 <;> omega

/-- With a timeout `t` and a cancellation endpoint that always succeeds,
polling through `pre` (all 202) and then `s ≠ 202` stops at `s`; the
cancellation flag ends up set exactly when the final clock exceeds `t`, and
exactly one cancellation request is issued in that case (none otherwise). -/
theorem pollLoop_timeout_spec (t : Nat) (post : List Nat) (s : Nat)
    (hs : s ≠ 202) (pre : List Nat) (hpre : ∀ x ∈ pre, x = 202) (st : LoopState) :
    pollLoop (fun _ => true) (some t) 202 st (pre ++ s :: post) =
      some (s, { st with
        clock := st.clock + 2 * (pre.length + 1),
        progressReqs := st.progressReqs + (pre.length + 1),
        cancelled := st.cancelled || decide (st.clock + 2 * (pre.length + 1) > t),
        cancelReqs := st.cancelReqs +
          (if st.cancelled = false ∧ st.clock + 2 * (pre.length + 1) > t then 1 else 0) }) := by
  have hstep : ∀ st : LoopState, pollStep (fun _ => true) (some t) st =
      if st.cancelled = false ∧ st.clock + 2 > t then
        { st with clock := st.clock + 2, progressReqs := st.progressReqs + 1,
                  cancelReqs := st.cancelReqs + 1, cancelled := true }
      else
        { st with clock := st.clock + 2, progressReqs := st.progressReqs + 1 } := by
    intro st
    by_cases hc : st.cancelled <;> by_cases ht : st.clock + 2 > t <;>
      simp [pollStep, hc, ht]
  induction pre generalizing st with
  | nil =>
    rw [List.nil_append, pollLoop_cons, if_pos rfl, pollLoop_not202 _ _ _ hs, hstep]
    by_cases hfire : st.cancelled = false ∧ st.clock + 2 > t
    · rw [if_pos hfire]
      obtain ⟨hc, ht⟩ := hfire
      refine congrArg some (congrArg (Prod.mk s) ?_)
      apply LoopState.ext <;> simp [hc, ht]
    · rw [if_neg hfire]
      refine congrArg some (congrArg (Prod.mk s) ?_)
      apply LoopState.ext <;> simp [hfire]
      intro h
      by_contra hcc
      exact hfire ⟨by simpa using hcc, h⟩
  | cons a tl ih =>
    have ha : a = 202 := hpre a (by simp)
    rw [List.cons_append, pollLoop_cons, if_pos rfl, ha,
      ih (fun x hx => hpre x (by simp [hx])), hstep]
    by_cases hfire : st.cancelled = false ∧ st.clock + 2 > t
    · rw [if_pos hfire]
      obtain ⟨hc, ht⟩ := hfire
      have hbig : st.clock + 2 * (tl.length + 1 + 1) > t := by omega
      refine congrArg some (congrArg (Prod.mk s) ?_)
      apply LoopState.ext <;>
        simp [hc, ht, hbig, List.length_cons] <;> omega
    · rw [if_neg hfire]
      have harith : st.clock + 2 + 2 * (tl.length + 1) =
          st.clock + 2 * (tl.length + 1 + 1) := by omega
      refine congrArg some (congrArg (Prod.mk s) ?_)
      apply LoopState.ext <;> dsimp only <;> simp only [List.length_cons] <;>
        first
        | omega
        | rw [harith]

/-- For an arbitrary cancellation oracle and timeout, the loop still stops at
the first non-202 status, issuing one progress request per consumed status,
and never touches the warning counter. -/
theorem pollLoop_exists_spec (cancelOk : Nat → Bool) (timeout : Option Nat)
    (post : List Nat) (s : Nat) (hs : s ≠ 202) (pre : List Nat)
    (hpre : ∀ x ∈ pre, x = 202) (st : LoopState) :
    ∃ st' : LoopState,
      pollLoop cancelOk timeout 202 st (pre ++ s :: post) = some (s, st') ∧
      st'.progressReqs = st.progressReqs + (pre.length + 1) ∧
      st'.warnings = st.warnings := by
  have hstepr : ∀ st : LoopState,
      (pollStep cancelOk timeout st).progressReqs = st.progressReqs + 1 ∧
      (pollStep cancelOk timeout st).warnings = st.warnings := by
    intro st
    simp only [pollStep]
    split <;> simp
  induction pre generalizing st with
  | nil =>
    rw [List.nil_append, pollLoop_cons, if_pos rfl, pollLoop_not202 _ _ _ hs]
    exact ⟨_, rfl, by simp [(hstepr st).1], (hstepr st).2⟩
  | cons a tl ih =>
    have ha : a = 202 := hpre a (by simp)
    rw [List.cons_append, pollLoop_cons, if_pos rfl, ha]
    obtain ⟨st', h1, h2, h3⟩ := ih (fun x hx => hpre x (by simp [hx]))
      (pollStep cancelOk timeout st)
    refine ⟨st', h1, ?_, ?_⟩
    · rw [h2, (hstepr st).1]
      simp only [List.length_cons]
      omega
    · rw [h3, (hstepr st).2]

/-- `pollStep` commutes with overwriting the warning counter. -/
theorem pollStep_warnings_shift (cancelOk : Nat → Bool) (timeout : Option Nat)
    (st : LoopState) (w : Nat) :
    pollStep cancelOk timeout { st with warnings := w } =
      { pollStep cancelOk timeout st with warnings := w } := by
  simp only [pollStep]
  split <;> rfl

/-- A single step never touches the warning counter. -/
theorem pollStep_warnings (cancelOk : Nat → Bool) (timeout : Option Nat)
    (st : LoopState) :
    (pollStep cancelOk timeout st).warnings = st.warnings := by
  simp only [pollStep]
  split <;> rfl

/-- The loop never touches the warning counter. -/
theorem pollLoop_warnings_eq (cancelOk : Nat → Bool) (timeout : Option Nat)
    (pending : List Nat) : ∀ (cur : Nat) (st : LoopState) (s' : Nat)
    (st' : LoopState),
    pollLoop cancelOk timeout cur st pending = some (s', st') →
    st'.warnings = st.warnings := by
  induction pending with
  | nil =>
    intro cur st s' st' h
    rw [pollLoop_nil] at h
    split at h
    · exact absurd h (by simp)
    · injection h with h'
      have h2 : st = st' := congrArg Prod.snd h'
      rw [← h2]
  | cons next rest ih =>
    intro cur st s' st' h
    rw [pollLoop_cons] at h
    split at h
    · rw [ih next (pollStep cancelOk timeout st) s' st' h,
        pollStep_warnings]
    · injection h with h'
      have h2 : st = st' := congrArg Prod.snd h'
      rw [← h2]

/-- The warning counter is carried through the polling loop unchanged: running
the loop from a state with warning counter `w` yields the same result as
running it from the original state, with the final warning counter overwritten
by `w`. -/
theorem pollLoop_warnings_shift (cancelOk : Nat → Bool) (timeout : Option Nat)
    (pending : List Nat) : ∀ (cur : Nat) (st : LoopState) (w : Nat),
    pollLoop cancelOk timeout cur { st with warnings := w } pending =
      (pollLoop cancelOk timeout cur st pending).map
        (fun p => (p.1, { p.2 with warnings := w })) := by
  induction pending with
  | nil =>
    intro cur st w
    rw [pollLoop_nil, pollLoop_nil]
    split <;> rfl
  | cons next rest ih =>
    intro cur st w
    rw [pollLoop_cons, pollLoop_cons]
    split
    · rw [pollStep_warnings_shift, ih]
    · rfl

/-- C1: a 202 response carrying a job identifier starts polling; the poller
issues exactly one progress request per status observed (one per element of
`pre` plus one for the terminating status), terminates on the first status
that is not 202, and hands that final response back to the caller.  No
cancellation request and no warning occurs without a timeout. -/
theorem long_running_poll_spec (version : String) (jid : String) (benign : Bool)
    (cancelOk : Nat → Bool) (pre post : List Nat) (s : Nat)
    (hpre : ∀ x ∈ pre, x = 202) (hs : s ≠ 202) :
    check_long_running version none cancelOk ⟨202, some jid, benign⟩
        (pre ++ s :: post) =
      .ok (some (s, ⟨2 * pre.length, false, pre.length + 1, 0, 0⟩)) := by
  cases pre with
  | nil =>
    simp only [check_long_running, Option.isSome_none, Bool.false_eq_true,
      false_and, if_neg (by simp : ¬ (False ∧ pyLt version "25.3p0" = true)),
      List.nil_append]
    rw [if_neg (by simp), pollLoop_not202 _ _ _ hs]
    simp
  | cons a tl =>
    have ha : a = 202 := hpre a (by simp)
    simp only [check_long_running, Option.isSome_none, Bool.false_eq_true,
      false_and, List.cons_append]
    rw [if_neg (by simp), if_neg (by simp), ha,
      pollLoop_none_spec cancelOk post s hs tl (fun x hx => hpre x (by simp [hx]))]
    simp only [Except.ok.injEq, Option.some.injEq, Prod.mk.injEq, true_and,
      List.length_cons]
    apply LoopState.ext <;> (simp; try omega)

/-- C1 witness: `POST` answered `202 {jobID:"42"}`, progress `202, 202, 200`:
the caller receives the final `200` after exactly two intermediate polls
(three progress requests in total). -/
theorem long_running_poll_spec_witness :
    check_long_running "24.2p0" none (fun _ => true) ⟨202, some "42", false⟩
        [202, 202, 200] =
      .ok (some (200, ⟨4, false, 3, 0, 0⟩)) :=
  long_running_poll_spec "24.2p0" "42" false (fun _ => true) [202, 202] [] 200
    (by decide) (by decide)

/-- C2: a requested timeout is version-gated.  Below `"25.3p0"` (Python string
comparison) the timeout is dropped: the whole run behaves exactly as if no
timeout had been given, except that one warning is logged — no error is
raised.  From `"25.3p0"` on the timeout is honored: with a working
cancellation endpoint, polling a job through `pre` 202-statuses issues exactly
one cancellation request when the elapsed time `2 * pre.length` exceeds the
timeout, and none otherwise. -/
theorem timeout_version_gate (version : String) (t : Nat) :
    (pyLt version "25.3p0" = true →
      ∀ (cancelOk : Nat → Bool) (resp : Resp) (progress : List Nat),
        check_long_running version (some t) cancelOk resp progress =
          bumpWarn (check_long_running version none cancelOk resp progress)) ∧
    (¬ pyLt version "25.3p0" = true →
      ∀ (jid : String) (benign : Bool) (pre post : List Nat) (s : Nat),
        (∀ x ∈ pre, x = 202) → s ≠ 202 →
        cancelCount (check_long_running version (some t) (fun _ => true)
          ⟨202, some jid, benign⟩ (pre ++ s :: post)) =
          if 2 * pre.length > t then 1 else 0) := by
  constructor
  · intro h cancelOk resp progress
    obtain ⟨status, jobID, ben⟩ := resp
    simp only [check_long_running, Option.isSome_some, Option.isSome_none,
      Bool.false_eq_true, false_and, true_and, if_pos h,
      if_neg (by simp : ¬ (False ∧ pyLt version "25.3p0" = true))]
    split
    · rfl
    · cases jobID with
      | none => rfl
      | some jid =>
        cases progress with
        | nil => rfl
        | cons first rest =>
          dsimp only
          simp only [if_false]
          have hshift : pollLoop cancelOk none first ⟨0, false, 1, 0, 1⟩ rest =
              (pollLoop cancelOk none first ⟨0, false, 1, 0, 0⟩ rest).map
                (fun p => (p.1, { p.2 with warnings := 1 })) :=
            pollLoop_warnings_shift cancelOk none rest first ⟨0, false, 1, 0, 0⟩ 1
          rw [hshift]
          cases hP : pollLoop cancelOk none first ⟨0, false, 1, 0, 0⟩ rest with
          | none => rfl
          | some p =>
            obtain ⟨s0, st0⟩ := p
            have hw : st0.warnings = 0 :=
              pollLoop_warnings_eq cancelOk none rest first ⟨0, false, 1, 0, 0⟩
                s0 st0 hP
            simp only [Option.map_some, bumpWarn, hw]
            simp
  · intro h jid benign pre post s hpre hs
    have hgate : ¬ ((some t : Option Nat).isSome ∧ pyLt version "25.3p0" = true) := by
      simp [h]
    cases pre with
    | nil =>
      simp only [check_long_running, if_neg hgate, List.nil_append]
      rw [if_neg (by simp), pollLoop_not202 _ _ _ hs]
      simp only [cancelCount, List.length_nil]
      simp
    | cons a tl =>
      have ha : a = 202 := hpre a (by simp)
      simp only [check_long_running, if_neg hgate, List.cons_append]
      rw [if_neg (by simp), ha,
        pollLoop_timeout_spec t post s hs tl (fun x hx => hpre x (by simp [hx]))]
      simp only [cancelCount, List.length_cons]
      simp

/-- C2 witness: against `"21.3p0"` a requested timeout is ignored with one
warning (same run as without a timeout); against `"25.3p0"` a 1-second
timeout on a job needing two polling cycles triggers exactly one cancellation
request. -/
theorem timeout_version_gate_witness :
    (check_long_running "21.3p0" (some 5) (fun _ => true) ⟨202, some "42", false⟩
        [202, 200] =
      bumpWarn (check_long_running "21.3p0" none (fun _ => true)
        ⟨202, some "42", false⟩ [202, 200])) ∧
    (cancelCount (check_long_running "25.3p0" (some 1) (fun _ => true)
        ⟨202, some "42", false⟩ ([202] ++ 200 :: [])) =
      if 2 * [202].length > 1 then 1 else 0) :=
  ⟨(timeout_version_gate "21.3p0" 5).1 (by decide) (fun _ => true)
      ⟨202, some "42", false⟩ [202, 200],
    (timeout_version_gate "25.3p0" 1).2 (by decide) "42" false [202] [] 200
      (by decide) (by decide)⟩

/-- C3 counterexample: when the cancellation request itself fails, the
`cancelled` guard flag is *not* set (`cancelled = True` is only reached after
a successful `get_req`), so the next polling cycle issues another cancellation
request: with a failing cancellation endpoint, a zero timeout and progress
statuses `202, 202, 200`, two cancellation requests are issued — the claimed
"at most one cancellation request no matter how many polling cycles elapse"
is false. -/
theorem cancel_request_repeats :
    1 < cancelCount (check_long_running "25.3p0" (some 0) (fun _ => false)
      ⟨202, some "42", false⟩ [202, 202, 200]) := by decide

/-- C3 (amended): at most one *successful* cancellation request is issued —
with a cancellation endpoint that succeeds, the guard flag limits the requests
to at most one; and for *any* cancellation oracle (including failing ones,
whose exceptions are swallowed with a warning and never escalated) the poller
keeps polling until the first non-202 status and returns it. -/
theorem cancel_advisory_spec (version : String) (t : Nat) (jid : String)
    (benign : Bool) (cancelOk : Nat → Bool) (pre post : List Nat) (s : Nat)
    (hpre : ∀ x ∈ pre, x = 202) (hs : s ≠ 202) :
    finalStatus (check_long_running version (some t) cancelOk
        ⟨202, some jid, benign⟩ (pre ++ s :: post)) = some s ∧
    cancelCount (check_long_running version (some t) (fun _ => true)
        ⟨202, some jid, benign⟩ (pre ++ s :: post)) ≤ 1 := by
  constructor
  · simp only [check_long_running]
    split
    · rename_i hcontra
      exact absurd hcontra (by simp)
    · cases pre with
      | nil =>
        simp only [List.nil_append]
        rw [pollLoop_not202 _ _ _ hs]
        rfl
      | cons a tl =>
        have ha : a = 202 := hpre a (by simp)
        simp only [List.cons_append]
        rw [ha]
        obtain ⟨st', h1, -, -⟩ := pollLoop_exists_spec cancelOk
          (if (some t : Option Nat).isSome ∧ pyLt version "25.3p0" = true then none
            else some t) post s hs tl (fun x hx => hpre x (by simp [hx]))
          ⟨0, false, 1, 0,
            if (some t : Option Nat).isSome ∧ pyLt version "25.3p0" = true then 1 else 0⟩
        rw [h1]
        rfl
  · by_cases hv : pyLt version "25.3p0" = true
    · have hgate : ((some t : Option Nat).isSome ∧ pyLt version "25.3p0" = true) := by
        simp [hv]
      cases pre with
      | nil =>
        simp only [check_long_running, if_pos hgate, List.nil_append]
        rw [if_neg (by simp), pollLoop_not202 _ _ _ hs]
        simp [cancelCount]
      | cons a tl =>
        have ha : a = 202 := hpre a (by simp)
        simp only [check_long_running, if_pos hgate, List.cons_append]
        rw [if_neg (by simp), ha,
          pollLoop_none_spec _ post s hs tl (fun x hx => hpre x (by simp [hx]))]
        simp [cancelCount]
    · have hgate : ¬ ((some t : Option Nat).isSome ∧ pyLt version "25.3p0" = true) := by
        simp [hv]
      cases pre with
      | nil =>
        simp only [check_long_running, if_neg hgate, List.nil_append]
        rw [if_neg (by simp), pollLoop_not202 _ _ _ hs]
        simp [cancelCount]
      | cons a tl =>
        have ha : a = 202 := hpre a (by simp)
        simp only [check_long_running, if_neg hgate, List.cons_append]
        rw [if_neg (by simp), ha,
          pollLoop_timeout_spec t post s hs tl (fun x hx => hpre x (by simp [hx]))]
        simp only [cancelCount]
        split <;> omega

/-- C3 amended witness: zero timeout, failing cancellation endpoint, progress
`202, 202, 200` — the poller still returns the final `200`; and with a
succeeding endpoint at most one cancellation request is issued. -/
theorem cancel_advisory_spec_witness :
    finalStatus (check_long_running "25.3p0" (some 0) (fun _ => false)
        ⟨202, some "42", false⟩ ([202, 202] ++ 200 :: [])) = some 200 ∧
    cancelCount (check_long_running "25.3p0" (some 0) (fun _ => true)
        ⟨202, some "42", false⟩ ([202, 202] ++ 200 :: [])) ≤ 1 :=
  cancel_advisory_spec "25.3p0" 0 "42" false (fun _ => false) [202, 202] [] 200
    (by decide) (by decide)

/-! ## Port finder (`_find_next_port` / `is_port_in_use`)

`is_port_in_use(port, host)` probes a TCP connect (`connect_ex == 0`), which
may itself raise (bad host name).  It is modelled by an oracle
`inUse : Nat → Except Unit Bool`: `.ok true` means a listener answered,
`.ok false` means the connect failed (port free), `.error` a raised probe. -/

/-- Errors out of `_find_next_port`: `noOpenPort` is the
`BtcApiException("No open port found.")`, `probeError` a probe exception
raised inside the `while` loop, which the source does not catch. -/
inductive PortError where
  | noOpenPort
  | probeError
deriving Repr, DecidableEq

/-- The `while open_port <= 65535 and not port_found` loop of
`_find_next_port`: increment the port, probe it, recompute `port_found`.
Returns the final value of `open_port`. -/
def findLoop (inUse : Nat → Except Unit Bool) (p : Nat) (found : Bool) :
    Except Unit Nat :=
  if p ≤ 65535 ∧ found = false then
    match inUse (p + 1) with
    | .error e => .error e
    | .ok b => findLoop inUse (p + 1) (!b)
  else .ok p
termination_by 65536 - p
decreasing_by
  rename_i h
  omega

/-- `_find_next_port(initial_port, host)`: probe the initial port (an error in
this very first probe is caught, logged, and the default port returned), then
run the search loop; after the loop, a port beyond 65535 means no open port
was found and `BtcApiException` is raised. -/
def find_next_port (inUse : Nat → Except Unit Bool) (initial_port : Nat) :
    Except PortError Nat :=
  match inUse initial_port with
  | .error _ => .ok initial_port
  | .ok b =>
    match findLoop inUse initial_port (!b) with
    | .error _ => .error .probeError
    | .ok p => if p > 65535 then .error .noOpenPort else .ok p

/-- Exiting the loop: once `port_found` holds the loop body never runs. -/
theorem findLoop_found (inUse : Nat → Except Unit Bool) (p : Nat) :
    findLoop inUse p true = .ok p := by
  rw [findLoop]
  simp

/-- Exiting the loop: a port counter beyond 65535 stops the search. -/
theorem findLoop_out (inUse : Nat → Except Unit Bool) (p : Nat)
    (h : ¬ p ≤ 65535) : findLoop inUse p false = .ok p := by
  rw [findLoop]
  rw [if_neg (by simp [h])]

/-- One iteration with a total probe oracle: increment and probe. -/
theorem findLoop_total_step (listener : Nat → Bool) (p : Nat)
    (h : p ≤ 65535) :
    findLoop (fun q => .ok (listener q)) p false =
      findLoop (fun q => .ok (listener q)) (p + 1) (!listener (p + 1)) := by
  rw [findLoop]
  rw [if_pos ⟨h, rfl⟩]

/-- For a total probe oracle, the loop starting at `p ≤ 65535` with
`port_found = false` returns the smallest free port in `[p+1, 65535]`, or
`65536` when all of them have listeners (the loop probes port 65536 itself
before giving up, faithfully to the source's `open_port += 1` placement). -/
theorem findLoop_total_spec (listener : Nat → Bool) :
    ∀ (n : Nat) (p : Nat), p ≤ 65535 → 65535 - p = n →
    findLoop (fun q => .ok (listener q)) p false =
      .ok (match (List.range' (p + 1) (65535 - p)).find?
            (fun q => !listener q) with
        | some q => q
        | none => 65536) := by
  intro n
  induction n with
  | zero =>
    intro p hple hp
    have hp65535 : p = 65535 := by omega
    subst hp65535
    rw [findLoop_total_step listener 65535 (by omega)]
    cases hl : listener 65536 with
    | false =>
      rw [Bool.not_false, findLoop_found]
      simp
    | true =>
      rw [Bool.not_true, findLoop_out _ _ (by omega)]
      simp
  | succ m ih =>
    intro p hple hp
    rw [findLoop_total_step listener p hple]
    have hrange : List.range' (p + 1) (65535 - p) =
        (p + 1) :: List.range' (p + 2) (65535 - (p + 1)) := by
      have h1 : 65535 - p = (65535 - (p + 1)) + 1 := by omega
      rw [h1, List.range'_succ]
    cases hl : listener (p + 1) with
    | false =>
      -- the probed port is free: loop exits at p+1, and it heads the range
      rw [Bool.not_false, findLoop_found, hrange,
        List.find?_cons_of_pos _ (by simp [hl])]
    | true =>
      rw [Bool.not_true, ih (p + 1) (by omega) (by omega), hrange,
        List.find?_cons_of_neg _ (by simp [hl])]

/-- C4: for every starting port and total probe oracle, `_find_next_port`
returns the smallest port `p ≥ p0` (and `≤ 65535`) with no listener, and
raises the no-open-port error when every port in `[p0, 65535]` has a listener
(in particular when `p0 > 65535`, where that interval is empty). -/
theorem find_next_port_spec (listener : Nat → Bool) (p0 : Nat) :
    find_next_port (fun q => .ok (listener q)) p0 =
      match (List.range' p0 (65536 - p0)).find? (fun q => !listener q) with
      | some q => .ok q
      | none => .error .noOpenPort := by
  by_cases hp0 : p0 ≤ 65535
  · have hrange : List.range' p0 (65536 - p0) =
        p0 :: List.range' (p0 + 1) (65535 - p0) := by
      have h1 : 65536 - p0 = (65535 - p0) + 1 := by omega
      rw [h1, List.range'_succ]
    simp only [find_next_port]
    cases hl : listener p0 with
    | false =>
      -- initial port free: the loop is entered with port_found = true
      rw [Bool.not_false, findLoop_found]
      rw [hrange, List.find?_cons_of_pos _ (by simp [hl])]
      simp only []
      rw [if_neg (by omega)]
    | true =>
      rw [Bool.not_true,
        findLoop_total_spec listener (65535 - p0) p0 hp0 rfl, hrange,
        List.find?_cons_of_neg _ (by simp [hl])]
      cases hfind : (List.range' (p0 + 1) (65535 - p0)).find?
          (fun q => !listener q) with
      | none =>
        simp only []
        rw [if_pos (by omega)]
      | some q =>
        have hq : q ∈ List.range' (p0 + 1) (65535 - p0) :=
          List.mem_of_find?_eq_some hfind
        have hqle : q ≤ 65535 := by
          have := List.mem_range'_1.mp hq
          omega
        simp only []
        rw [if_neg (by omega)]
  · -- starting beyond the port range: empty search interval, always an error
    have hrange : List.range' p0 (65536 - p0) = [] := by
      have : 65536 - p0 = 0 := by omega
      rw [this, List.range']
    simp only [find_next_port, hrange, List.find?_nil]
    cases hl : listener p0 with
    | false =>
      rw [Bool.not_false, findLoop_found]
      simp only []
      rw [if_pos (by omega)]
    | true =>
      rw [Bool.not_true, findLoop_out _ _ (by omega)]
      simp only []
      rw [if_pos (by omega)]

/-! ## Percent-encoding (`urllib.parse.quote` / `unquote`)

`quote(path, safe="")` and `unquote(path)` operate on the UTF-8 bytes of the
path; paths are therefore modelled as byte lists (`List Nat`), with `strBytes`
converting ASCII text.  `quote` leaves the always-safe bytes
(ASCII letters, digits, `_ . - ~`) untouched and writes every other byte as
`%XX` with uppercase hex; `unquote` decodes `%XX` for case-insensitive hex
digits and leaves invalid or incomplete escapes literal. -/

/-- Bytes of an ASCII string (code points; coincides with UTF-8 for ASCII). -/
def strBytes (s : String) : List Nat := s.toList.map Char.toNat

/-- `urllib.parse`'s always-safe characters: ASCII alphanumerics and `_.-~`. -/
def alwaysSafe (b : Nat) : Bool :=
  (65 ≤ b && b ≤ 90) || (97 ≤ b && b ≤ 122) || (48 ≤ b && b ≤ 57) ||
    b == 95 || b == 46 || b == 45 || b == 126

/-- Uppercase hex digit for a nibble. -/
def hexDigitUpper (n : Nat) : Nat := if n < 10 then 48 + n else 55 + n

/-- `quote(·, safe="")`: percent-encode every byte that is not always safe. -/
def quote : List Nat → List Nat
  | [] => []
  | b :: rest =>
    (if alwaysSafe b then [b]
      else [37, hexDigitUpper (b / 16), hexDigitUpper (b % 16)]) ++ quote rest

/-- Value of a (case-insensitive) hex digit byte. -/
def hexVal (b : Nat) : Option Nat :=
  if 48 ≤ b ∧ b ≤ 57 then some (b - 48)
  else if 65 ≤ b ∧ b ≤ 70 then some (b - 55)
  else if 97 ≤ b ∧ b ≤ 102 then some (b - 87)
  else none

/-- `unquote`: decode `%XX` escapes, leaving invalid escapes literal. -/
def unquote : List Nat → List Nat
  | [] => []
  | 37 :: h :: l :: rest2 =>
    (match hexVal h, hexVal l with
      | some hv, some lv => (hv * 16 + lv) :: unquote rest2
      | _, _ => 37 :: unquote (h :: l :: rest2))
  | b :: rest => b :: unquote rest

theorem hexVal_hexDigitUpper (n : Nat) (h : n < 16) :
    hexVal (hexDigitUpper n) = some n := by
  interval_cases n <;> rfl

theorem alwaysSafe_ne_percent (b : Nat) (h : alwaysSafe b = true) : b ≠ 37 := by
  intro he
  subst he
  simp [alwaysSafe] at h

/-- A byte that is not `%` passes `unquote` untouched. -/
theorem unquote_cons_ne (b : Nat) (rest : List Nat) (hb : b ≠ 37) :
    unquote (b :: rest) = b :: unquote rest := by
  rcases rest with - | ⟨h, - | ⟨l, r⟩⟩ <;> simp [unquote, hb]

/-- A valid `%XX` escape decodes to its byte. -/
theorem unquote_escape (h l : Nat) (r : List Nat) (hv lv : Nat)
    (hh : hexVal h = some hv) (hl : hexVal l = some lv) :
    unquote (37 :: h :: l :: r) = (hv * 16 + lv) :: unquote r := by
  simp [unquote, hh, hl]

/-- Decoding inverts encoding: `unquote(quote(p)) = p` for byte strings. -/
theorem unquote_quote (bs : List Nat) (h : ∀ b ∈ bs, b < 256) :
    unquote (quote bs) = bs := by
  induction bs with
  | nil => rfl
  | cons b rest ih =>
    have hb : b < 256 := h b (by simp)
    have hrest := ih (fun x hx => h x (by simp [hx]))
    by_cases hsafe : alwaysSafe b
    · rw [quote, if_pos hsafe, List.singleton_append,
        unquote_cons_ne b _ (alwaysSafe_ne_percent b hsafe), hrest]
    · rw [quote, if_neg hsafe, List.cons_append, List.cons_append,
        List.cons_append, List.nil_append,
        unquote_escape _ _ _ _ _ (hexVal_hexDigitUpper (b / 16) (by omega))
          (hexVal_hexDigitUpper (b % 16) (by omega))]
      have hdm : b / 16 * 16 + b % 16 = b := by omega
      rw [hdm, hrest]

/-- A hex digit byte is a digit or an uppercase letter `A`–`F`; in particular
it is never `?`, `=` or `&`. -/
theorem hexDigitUpper_range (n : Nat) :
    (48 ≤ hexDigitUpper n ∧ hexDigitUpper n ≤ 57) ∨ 65 ≤ hexDigitUpper n := by
  simp only [hexDigitUpper]
  split <;> omega

/-- `quote` output never contains the separators `?` (63), `=` (61), `&` (38). -/
theorem quote_not_mem_sep (c : Nat) (hc : c = 63 ∨ c = 61 ∨ c = 38) :
    ∀ bs : List Nat, c ∉ quote bs := by
  have hhex : ∀ n : Nat, c ≠ hexDigitUpper n := by
    intro n he
    rcases hexDigitUpper_range n with h | h <;>
      rcases hc with rfl | rfl | rfl <;> omega
  intro bs
  induction bs with
  | nil => simp [quote]
  | cons b rest ih =>
    rw [quote]
    intro hmem
    rw [List.mem_append] at hmem
    rcases hmem with hmem | hmem
    · split at hmem
      · rename_i hsafe
        simp only [List.mem_singleton] at hmem
        subst hmem
        rcases hc with rfl | rfl | rfl <;> simp [alwaysSafe] at hsafe
      · simp only [List.mem_cons, List.not_mem_nil, or_false] at hmem
        rcases hmem with h | h | h
        · rcases hc with rfl | rfl | rfl <;> omega
        · exact hhex _ h
        · exact hhex _ h
    · exact ih hmem

/-- `unquote` never maps a nonempty byte string to the empty one. -/
theorem unquote_ne_nil (bs : List Nat) (h : bs ≠ []) : unquote bs ≠ [] := by
  rcases bs with - | ⟨b, rest⟩
  · exact absurd rfl h
  · rcases eq_or_ne b 37 with rfl | hb
    · rcases rest with - | ⟨x, - | ⟨y, r⟩⟩
      · simp [unquote]
      · rw [show unquote [37, x] = 37 :: unquote [x] by simp [unquote]]
        simp
      · rw [show unquote (37 :: x :: y :: r) =
            (match hexVal x, hexVal y with
              | some hv, some lv => (hv * 16 + lv) :: unquote r
              | _, _ => 37 :: unquote (x :: y :: r)) from by rw [unquote]]
        rcases hexVal x with - | hv <;> rcases hexVal y with - | lv <;> simp
    · rw [unquote_cons_ne b rest hb]
      simp

/-! ## Profile-load URL translation
(`_get_profilesurl_pre253` / `_get_profilesurl_post253` / `_precheck_get`)

The file-system and host checks are oracles: `isfile` models
`os.path.isfile`, `islocal` models `self._is_localhost()`. -/

/-- Failure modes of the translation:
`profileNotFound` is the `logger.critical` + `exit(1)` path,
`missingPath` the `raise Exception("Missing 'path' query parameter ...")`,
`malformedQuery` the uncaught `ValueError` from `key, value = qpp.split('=')`
when a pair does not split in exactly two parts, and `noPathVar` the uncaught
`NameError` when `if path:` runs although no pair had key `path`. -/
inductive ProfErr where
  | profileNotFound
  | missingPath
  | malformedQuery
  | noPathVar
deriving Repr, DecidableEq

/-- Python `str.split(sep)` for a single-byte separator. -/
def splitOnB (sep : Nat) : List Nat → List (List Nat)
  | [] => [[]]
  | b :: rest =>
    let r := splitOnB sep rest
    if b = sep then [] :: r else (b :: r.headD []) :: r.tail

theorem splitOnB_ne_nil (sep : Nat) (l : List Nat) : splitOnB sep l ≠ [] := by
  cases l with
  | nil => simp [splitOnB]
  | cons b rest =>
    rw [splitOnB]
    split <;> simp

theorem splitOnB_not_mem (sep : Nat) (l : List Nat) (h : sep ∉ l) :
    splitOnB sep l = [l] := by
  induction l with
  | nil => rfl
  | cons b rest ih =>
    rw [splitOnB, ih (fun hx => h (by simp [hx]))]
    rw [if_neg (by intro he; exact h (by simp [he]))]
    rfl

theorem splitOnB_append (sep : Nat) (a b : List Nat) (ha : sep ∉ a) :
    splitOnB sep (a ++ sep :: b) = a :: splitOnB sep b := by
  induction a with
  | nil =>
    rw [List.nil_append, splitOnB, if_pos rfl]
  | cons x a2 ih =>
    rw [List.cons_append, splitOnB, ih (fun hx => ha (by simp [hx]))]
    rw [if_neg (by intro he; exact ha (by simp [he]))]
    rfl

/-- `_get_profilesurl_pre253(urlappendix, logger, convert_to_post253)`:
extract the path between `profiles/` and the first `?`, `unquote` it (in case
the caller already quoted it), abort fatally when the file does not exist on a
local host, re-`quote` it and rebuild the URL. -/
def profilesurl_pre253 (isfile : List Nat → Bool) (islocal : Bool)
    (urlappendix : List Nat) (convert_to_post253 : Bool) :
    Except ProfErr (List Nat) :=
  let iq := urlappendix.findIdx? (· == 63)
  let path0 := match iq with
    | some i =>
      if 0 < i then (urlappendix.drop 9).take (i - 9) else urlappendix.drop 9
    | none => urlappendix.drop 9
  let suffix : List Nat := match iq with
    | some i => if 0 < i then urlappendix.drop i else []
    | none => []
  let path := unquote path0
  if path ≠ [] ∧ isfile path = false ∧ islocal = true then
    .error .profileNotFound
  else
    if convert_to_post253 then .ok (strBytes "openprofile?path=" ++ quote path)
    else .ok (strBytes "profiles/" ++ quote path ++ suffix)

/-- The `for qpp in query_param_pairs` loop of `_get_profilesurl_post253`:
find the first pair with key `path`, `unquote` its value, abort fatally when
the file does not exist on a local host, and return the re-`quote`d path
(`none` when no pair has key `path` and the loop falls through). -/
def findPathValue (isfile : List Nat → Bool) (islocal : Bool) :
    List (List Nat) → Except ProfErr (Option (List Nat))
  | [] => .ok none
  | qpp :: rest =>
    match splitOnB 61 qpp with
    | [k, v] =>
      if k = strBytes "path" then
        let p := unquote v
        if p ≠ [] ∧ isfile p = false ∧ islocal = true then
          .error .profileNotFound
        else .ok (some (quote p))
      else findPathValue isfile islocal rest
    | _ => .error .malformedQuery

/-- The reconstruction loop of `_get_profilesurl_post253`: every pair keyed
`path` is replaced by `path=<encoded>`; re-splitting a malformed later pair
raises. -/
def rebuildQuery (pathq : List Nat) :
    List (List Nat) → Except ProfErr (List (List Nat))
  | [] => .ok []
  | qpp :: rest =>
    match splitOnB 61 qpp with
    | [k, _] =>
      (match rebuildQuery pathq rest with
        | .error e => .error e
        | .ok others =>
          .ok ((if k = strBytes "path" then k ++ 61 :: pathq else qpp) :: others))
    | _ => .error .malformedQuery

/-- `_get_profilesurl_post253(urlappendix, logger)`. -/
def profilesurl_post253 (isfile : List Nat → Bool) (islocal : Bool)
    (urlappendix : List Nat) : Except ProfErr (List Nat) :=
  let iq := urlappendix.findIdx? (· == 63)
  let qs := match iq with
    | some i => if 0 < i then urlappendix.drop (i + 1) else []
    | none => []
  if qs = [] then .error .missingPath
  else
    let pairs := splitOnB 38 qs
    match findPathValue isfile islocal pairs with
    | .error e => .error e
    | .ok none => .error .noPathVar
    | .ok (some pathq) =>
      if pathq = [] then .ok (strBytes "openprofile?" ++ qs)
      else
        match rebuildQuery pathq pairs with
        | .error e => .error e
        | .ok parts =>
          .ok (strBytes "openprofile?" ++ List.intercalate [38] parts)

/-- `_is_profile_load_call(urlappendix)`. -/
def is_profile_load_call (urlappendix : List Nat) : Bool :=
  (strBytes "openprofile").isPrefixOf urlappendix ||
    (strBytes "profiles/").isPrefixOf urlappendix

/-- `_precheck_get(urlappendix, message)`, URL-translation part: profile-load
calls go through the version-appropriate translation (`version and version >=
'25.3p0'` selects the deprecation shim that converts `profiles/...` into
`openprofile?path=...`); everything else passes through unchanged. -/
def precheck_get (version : String) (isfile : List Nat → Bool) (islocal : Bool)
    (urlappendix : List Nat) : Except ProfErr (List Nat) :=
  if is_profile_load_call urlappendix then
    if (strBytes "openprofile").isPrefixOf urlappendix then
      profilesurl_post253 isfile islocal urlappendix
    else
      if version ≠ "" ∧ pyLt version "25.3p0" = false then
        profilesurl_pre253 isfile islocal urlappendix true
      else
        profilesurl_pre253 isfile islocal urlappendix false
  else .ok urlappendix

/-- `get_req(urlappendix, ...)`, call-trace view: `_precheck_get` runs first;
only when it returns a URL does `requests.get` fire (second component: the
list of HTTP requests issued).  `exit(1)` inside the precheck therefore
happens before any HTTP call. -/
def get_req_calls (version : String) (isfile : List Nat → Bool)
    (islocal : Bool) (urlappendix : List Nat) :
    Except ProfErr (List Nat) × List (List Nat) :=
  match precheck_get version isfile islocal urlappendix with
  | .error e => (.error e, [])
  | .ok url => (.ok url, [url])

theorem findIdxQ_none (l : List Nat) (h : 63 ∉ l) :
    l.findIdx? (· == 63) = none := by
  induction l with
  | nil => simp
  | cons b rest ih =>
    have hb : (b == 63) = false := by
      simp only [beq_eq_false_iff_ne, ne_eq]
      intro he
      exact h (by simp [he])
    simp [List.findIdx?_cons, hb, ih (fun hx => h (by simp [hx]))]

theorem findIdxQ_append (a : List Nat) (ha : 63 ∉ a) (b : List Nat) :
    (a ++ 63 :: b).findIdx? (· == 63) = some a.length := by
  induction a with
  | nil => simp [List.findIdx?_cons]
  | cons x a2 ih =>
    have hx : (x == 63) = false := by
      simp only [beq_eq_false_iff_ne, ne_eq]
      intro he
      exact ha (by simp [he])
    rw [List.cons_append]
    simp [List.findIdx?_cons, hx, ih (fun hmem => ha (by simp [hmem]))]

/-- The translated `profiles/...` URL aborts fatally when the decoded path
names no existing file on a local host. -/
theorem profilesurl_pre253_notfound (isfile : List Nat → Bool) (p : List Nat)
    (hne : p ≠ []) (hq : 63 ∉ p) (hfile : isfile (unquote p) = false)
    (convert : Bool) :
    profilesurl_pre253 isfile true (strBytes "profiles/" ++ p) convert =
      .error .profileNotFound := by
  have hq9 : 63 ∉ strBytes "profiles/" ++ p := by
    intro hmem
    rw [List.mem_append] at hmem
    rcases hmem with h | h
    · revert h
      decide
    · exact hq h
  have hidx : (strBytes "profiles/" ++ p).findIdx? (· == 63) = none :=
    findIdxQ_none _ hq9
  simp only [profilesurl_pre253, hidx]
  rw [show (9 : Nat) = (strBytes "profiles/").length from rfl, List.drop_left]
  rw [if_pos ⟨unquote_ne_nil p hne, hfile, trivial⟩]

/-- The translated `openprofile?path=...` URL aborts fatally when the decoded
path names no existing file on a local host. -/
theorem profilesurl_post253_notfound (isfile : List Nat → Bool) (p : List Nat)
    (hne : p ≠ []) (heq : 61 ∉ p) (hamp : 38 ∉ p)
    (hfile : isfile (unquote p) = false) :
    profilesurl_post253 isfile true (strBytes "openprofile?path=" ++ p) =
      .error .profileNotFound := by
  have hsplit : strBytes "openprofile?path=" ++ p =
      strBytes "openprofile" ++ 63 :: (strBytes "path=" ++ p) := by
    rw [show strBytes "openprofile?path=" =
      strBytes "openprofile" ++ 63 :: strBytes "path=" from rfl,
      List.append_assoc, List.cons_append]
  have hidx : (strBytes "openprofile?path=" ++ p).findIdx? (· == 63) =
      some 11 := by
    rw [hsplit]
    exact findIdxQ_append (strBytes "openprofile") (by decide) _
  have hdrop : (strBytes "openprofile?path=" ++ p).drop 12 =
      strBytes "path=" ++ p := by
    rw [show strBytes "openprofile?path=" =
      strBytes "openprofile?" ++ strBytes "path=" from rfl, List.append_assoc,
      show (12 : Nat) = (strBytes "openprofile?").length from rfl,
      List.drop_left]
  simp only [profilesurl_post253, hidx]
  rw [if_pos (by omega : (0 : Nat) < 11)]
  rw [show (11 + 1 : Nat) = 12 from rfl, hdrop]
  rw [if_neg (by
    intro h0
    have h1 := congrArg List.length h0
    rw [List.length_append,
      show (strBytes "path=").length = 5 from rfl] at h1
    simp at h1)]
  have hpairs : splitOnB 38 (strBytes "path=" ++ p) = [strBytes "path=" ++ p] := by
    apply splitOnB_not_mem
    intro hmem
    rw [List.mem_append] at hmem
    rcases hmem with h | h
    · revert h
      decide
    · exact hamp h
  have hkv : splitOnB 61 (strBytes "path=" ++ p) = [strBytes "path", p] := by
    rw [show strBytes "path=" = strBytes "path" ++ [61] from rfl,
      List.append_assoc, List.singleton_append,
      splitOnB_append 61 _ _ (by decide), splitOnB_not_mem 61 p heq]
  rw [hpairs]
  rw [findPathValue, hkv]
  simp only [if_pos rfl]
  have hcond : unquote p ≠ [] ∧ isfile (unquote p) = false ∧ True :=
    ⟨unquote_ne_nil p hne, hfile, True.intro⟩
  rw [if_pos hcond]
  simp

/-- C5: a profile-load request (either endpoint shape) whose referenced
profile file does not exist on disk, issued against the local host, aborts
with the fatal configuration error and issues no HTTP request, for every
engine version. -/
theorem profile_missing_fatal (version : String) (isfile : List Nat → Bool)
    (p : List Nat) (hne : p ≠ []) (hq : 63 ∉ p) (heq : 61 ∉ p) (hamp : 38 ∉ p)
    (hfile : isfile (unquote p) = false) :
    get_req_calls version isfile true (strBytes "profiles/" ++ p) =
      (.error .profileNotFound, []) ∧
    get_req_calls version isfile true (strBytes "openprofile?path=" ++ p) =
      (.error .profileNotFound, []) := by
  constructor
  · have hpl : is_profile_load_call (strBytes "profiles/" ++ p) = true := by
      simp only [is_profile_load_call, Bool.or_eq_true]
      exact Or.inr (List.isPrefixOf_iff_prefix.mpr (List.prefix_append _ _))
    have hnop : (strBytes "openprofile").isPrefixOf (strBytes "profiles/" ++ p)
        = false := by
      rw [show strBytes "openprofile" = 111 :: strBytes "penprofile" from rfl,
        show strBytes "profiles/" ++ p = 112 :: (strBytes "rofiles/" ++ p)
          from by rw [show strBytes "profiles/" = 112 :: strBytes "rofiles/"
            from rfl, List.cons_append]]
      simp [List.isPrefixOf]
    simp only [get_req_calls, precheck_get, hpl, hnop, if_true,
      Bool.false_eq_true, if_false]
    by_cases hv : version ≠ "" ∧ pyLt version "25.3p0" = false
    · rw [if_pos hv, profilesurl_pre253_notfound isfile p hne hq hfile true]
    · rw [if_neg hv, profilesurl_pre253_notfound isfile p hne hq hfile false]
  · have hop : (strBytes "openprofile").isPrefixOf
        (strBytes "openprofile?path=" ++ p) = true := by
      rw [show strBytes "openprofile?path=" ++ p =
        strBytes "openprofile" ++ (strBytes "?path=" ++ p) from rfl]
      exact List.isPrefixOf_iff_prefix.mpr (List.prefix_append _ _)
    have hpl : is_profile_load_call (strBytes "openprofile?path=" ++ p)
        = true := by
      simp [is_profile_load_call, hop]
    simp only [get_req_calls, precheck_get, hpl, hop, if_true]
    rw [profilesurl_post253_notfound isfile p hne heq hamp hfile]

/-- C5 witness: `profiles/C:/models/foo.epp` and
`openprofile?path=C:/models/foo.epp` on a local host with no such file both
abort fatally with no HTTP request issued. -/
theorem profile_missing_fatal_witness :
    get_req_calls "24.2p0" (fun _ => false) true
        (strBytes "profiles/" ++ strBytes "C:/models/foo.epp") =
      (.error .profileNotFound, []) ∧
    get_req_calls "24.2p0" (fun _ => false) true
        (strBytes "openprofile?path=" ++ strBytes "C:/models/foo.epp") =
      (.error .profileNotFound, []) :=
  profile_missing_fatal "24.2p0" (fun _ => false) (strBytes "C:/models/foo.epp")
    (by decide) (by decide) (by decide) (by decide) rfl

/-- Normal form of the `profiles/...` translation for a query-free path
appendix: the translated URL embeds `quote(unquote(path))`. -/
theorem profilesurl_pre253_noq (isfile : List Nat → Bool) (islocal : Bool)
    (convert : Bool) (p : List Nat) (hq : 63 ∉ p) :
    profilesurl_pre253 isfile islocal (strBytes "profiles/" ++ p) convert =
      if unquote p ≠ [] ∧ isfile (unquote p) = false ∧ islocal = true then
        .error .profileNotFound
      else if convert then
        .ok (strBytes "openprofile?path=" ++ quote (unquote p))
      else .ok (strBytes "profiles/" ++ quote (unquote p)) := by
  have hq9 : 63 ∉ strBytes "profiles/" ++ p := by
    intro hmem
    rw [List.mem_append] at hmem
    rcases hmem with h | h
    · revert h
      decide
    · exact hq h
  have hidx : (strBytes "profiles/" ++ p).findIdx? (· == 63) = none :=
    findIdxQ_none _ hq9
  simp only [profilesurl_pre253, hidx]
  rw [show (9 : Nat) = (strBytes "profiles/").length from rfl, List.drop_left]
  simp only [List.append_nil]

deriving instance DecidableEq for Except

/-- C6 counterexample: for the raw profile path `a%41` (a file name that
contains a literal percent escape), passing the raw path and passing its
percent-encoded form `a%2541` produce *different* final URLs
(`profiles/aA` versus `profiles/a%2541`), so "passing a raw path and passing
its already-percent-encoded form produce the same final URL" fails. -/
theorem encode_once_counterexample :
    profilesurl_pre253 (fun _ => true) false
        (strBytes "profiles/" ++ strBytes "a%41") false ≠
      profilesurl_pre253 (fun _ => true) false
        (strBytes "profiles/" ++ quote (strBytes "a%41")) false := by
  decide

/-- C6 (amended): the translated URL always embeds `quote(unquote(path))` of
the given path; consequently, for every raw path that contains no decodable
percent escape (`unquote p = p`), passing the raw path and passing its
percent-encoded form produce the same final URL — the file-existence check
also sees the same decoded path in both runs. -/
theorem encode_once_spec (isfile : List Nat → Bool) (islocal : Bool)
    (convert : Bool) (p : List Nat) (h256 : ∀ b ∈ p, b < 256) (hq : 63 ∉ p)
    (hraw : unquote p = p) :
    profilesurl_pre253 isfile islocal (strBytes "profiles/" ++ p) convert =
      profilesurl_pre253 isfile islocal (strBytes "profiles/" ++ quote p)
        convert ∧
    profilesurl_pre253 isfile false (strBytes "profiles/" ++ p) false =
      .ok (strBytes "profiles/" ++ quote (unquote p)) := by
  constructor
  · rw [profilesurl_pre253_noq isfile islocal convert p hq,
      profilesurl_pre253_noq isfile islocal convert (quote p)
        (quote_not_mem_sep 63 (Or.inl rfl) p),
      unquote_quote p h256, hraw]
  · rw [profilesurl_pre253_noq isfile false false p hq]
    rw [if_neg (by
      intro hcontra
      exact absurd hcontra.2.2 (by simp))]
    rw [if_neg (by simp)]

/-- C6 amended witness: for the raw path `C:/models/foo 1.epp` (no percent
escape), the raw form and the pre-encoded form `C%3A%2Fmodels%2Ffoo%201.epp`
translate to the same URL, which embeds the once-encoded path. -/
theorem encode_once_spec_witness :
    (profilesurl_pre253 (fun _ => true) true
        (strBytes "profiles/" ++ strBytes "C:/models/foo 1.epp") false =
      profilesurl_pre253 (fun _ => true) true
        (strBytes "profiles/" ++ quote (strBytes "C:/models/foo 1.epp"))
        false) ∧
    profilesurl_pre253 (fun _ => true) false
        (strBytes "profiles/" ++ strBytes "C:/models/foo 1.epp") false =
      .ok (strBytes "profiles/" ++
        quote (unquote (strBytes "C:/models/foo 1.epp"))) :=
  encode_once_spec (fun _ => true) true false
    (strBytes "C:/models/foo 1.epp") (by decide) (by decide) (by decide)

/-! ## Message fetching and sorting (`get_messages`)

`DATE_FORMAT_MESSAGES = '%d-%b-%Y %H:%M:%S'`: message dates look like
`02-Jan-2024 13:37:42`.  `datetime.strptime` with this format is modelled by
`parseDateMessages`, returning a `Nat` key that orders timestamps exactly as
the parsed `datetime` tuples do (lexicographically in year, month, day, hour,
minute, second); day-of-month calendar validity (e.g. `31-Feb`) is not
modelled, only the format shape and field ranges. -/

/-- Order relation on parsed strings used for `pyLt`-based order proofs:
head-to-head code-point comparison (`pyLtL` written as an iff). -/
theorem pyLtL_cons (x y : Char) (as bs : List Char) :
    pyLtL (x :: as) (y :: bs) = true ↔
      (x.toNat < y.toNat ∨ (x.toNat = y.toNat ∧ pyLtL as bs = true)) := by
  rw [pyLtL]
  by_cases h1 : x.toNat < y.toNat
  · simp [h1]
  · by_cases h2 : y.toNat < x.toNat
    · rw [if_neg h1, if_pos h2]
      simp only [Bool.false_eq_true, false_iff]
      push_neg
      constructor
      · omega
      · intro he
        omega
    · rw [if_neg h1, if_neg h2]
      have hxy : x.toNat = y.toNat := by omega
      simp [hxy, h1]

theorem pyLtL_trichotomy (a : List Char) :
    ∀ b : List Char, pyLtL a b = true ∨ pyLtL b a = true ∨ a = b := by
  induction a with
  | nil =>
    intro b
    cases b with
    | nil => right; right; rfl
    | cons y bs => left; rfl
  | cons x as ih =>
    intro b
    cases b with
    | nil => right; left; rfl
    | cons y bs =>
      by_cases h1 : x.toNat < y.toNat
      · left
        rw [pyLtL_cons]
        exact Or.inl h1
      · by_cases h2 : y.toNat < x.toNat
        · right; left
          rw [pyLtL_cons]
          exact Or.inl h2
        · have hxy : x.toNat = y.toNat := by omega
          have hc : x = y := Char.ext (UInt32.ext hxy)
          rcases ih bs with h | h | h
          · left
            rw [pyLtL_cons]
            exact Or.inr ⟨hxy, h⟩
          · right; left
            rw [pyLtL_cons]
            exact Or.inr ⟨hxy.symm, h⟩
          · right; right
            rw [hc, h]

theorem pyLtL_trans (a : List Char) :
    ∀ b c : List Char, pyLtL a b = true → pyLtL b c = true →
      pyLtL a c = true := by
  induction a with
  | nil =>
    intro b c hab hbc
    cases c with
    | nil =>
      cases b with
      | nil => exact absurd hab (by simp [pyLtL])
      | cons y bs => exact absurd hbc (by simp [pyLtL])
    | cons z cs => rfl
  | cons x as ih =>
    intro b c hab hbc
    cases b with
    | nil => exact absurd hab (by simp [pyLtL])
    | cons y bs =>
      cases c with
      | nil => exact absurd hbc (by simp [pyLtL])
      | cons z cs =>
        rw [pyLtL_cons] at hab hbc ⊢
        rcases hab with h1 | ⟨h1, h1'⟩ <;> rcases hbc with h2 | ⟨h2, h2'⟩
        · exact Or.inl (by omega)
        · exact Or.inl (by omega)
        · exact Or.inl (by omega)
        · exact Or.inr ⟨by omega, ih bs cs h1' h2'⟩

theorem pyLtL_irrefl (a : List Char) : pyLtL a a = false := by
  induction a with
  | nil => rfl
  | cons x as ih =>
    rw [pyLtL]
    simp [ih]

/-- `pyLe` is total. -/
theorem pyLe_total (a b : String) : pyLe a b = true ∨ pyLe b a = true := by
  simp only [pyLe, pyLt, Bool.not_eq_true']
  by_contra hcon
  push_neg at hcon
  obtain ⟨h1, h2⟩ := hcon
  rw [ne_eq, Bool.not_eq_false] at h1 h2
  have hbb := pyLtL_trans _ _ _ h1 h2
  rw [pyLtL_irrefl] at hbb
  exact absurd hbb (by simp)

/-- `pyLe` is transitive. -/
theorem pyLe_trans (a b c : String) (hab : pyLe a b = true)
    (hbc : pyLe b c = true) : pyLe a c = true := by
  simp only [pyLe, pyLt, Bool.not_eq_true'] at hab hbc ⊢
  by_contra hca
  rw [Bool.not_eq_false] at hca
  rcases pyLtL_trichotomy a.toList b.toList with h | h | h
  · have := pyLtL_trans _ _ _ hca h
    rw [this] at hbc
    exact absurd hbc (by simp)
  · rw [h] at hab
    exact absurd hab (by simp)
  · rw [← h] at hbc
    rw [hca] at hbc
    exact absurd hbc (by simp)

/-- Engine message object: `{date, severity, message, hint?}`. -/
structure Msg where
  date : String
  severity : String
  message : String
  hint : Option String
deriving Repr, DecidableEq

/-- Value of a 1–2 digit or 4 digit decimal field. -/
def digitsVal (minLen maxLen : Nat) (s : List Char) : Option Nat :=
  if minLen ≤ s.length ∧ s.length ≤ maxLen ∧ s.all Char.isDigit then
    some (s.foldl (fun a c => a * 10 + (c.toNat - 48)) 0)
  else none

/-- English month abbreviation (`%b`, matched case-insensitively as
`strptime` does). -/
def monthNum (s : List Char) : Option Nat :=
  let l := s.map Char.toLower
  if l = "jan".toList then some 1
  else if l = "feb".toList then some 2
  else if l = "mar".toList then some 3
  else if l = "apr".toList then some 4
  else if l = "may".toList then some 5
  else if l = "jun".toList then some 6
  else if l = "jul".toList then some 7
  else if l = "aug".toList then some 8
  else if l = "sep".toList then some 9
  else if l = "oct".toList then some 10
  else if l = "nov".toList then some 11
  else if l = "dec".toList then some 12
  else none

/-- Strictly monotone encoding of a datetime tuple as a single `Nat`:
comparing keys coincides with comparing `datetime` values. -/
def dateKey (y mo d h mi s : Nat) : Nat :=
  ((((y * 13 + mo) * 32 + d) * 24 + h) * 60 + mi) * 60 + s

/-- Split a character list at every occurrence of `sep` (Python
`str.split(sep)` at the character level). -/
def splitOnC (sep : Char) : List Char → List (List Char)
  | [] => [[]]
  | c :: rest =>
    let r := splitOnC sep rest
    if c = sep then [] :: r else (c :: r.headD []) :: r.tail

/-- `datetime.strptime(date, '%d-%b-%Y %H:%M:%S')`, as a total parser
returning `none` where `strptime` raises `ValueError`. -/
def parseDateMessages (s : String) : Option Nat :=
  match splitOnC ' ' s.toList with
  | [dpart, tpart] =>
    (match splitOnC '-' dpart with
      | [ds, ms, ys] =>
        (match digitsVal 1 2 ds, monthNum ms, digitsVal 4 4 ys with
          | some d, some mo, some y =>
            if 1 ≤ d ∧ d ≤ 31 then
              (match splitOnC ':' tpart with
                | [hs, mins, secs] =>
                  (match digitsVal 1 2 hs, digitsVal 1 2 mins,
                      digitsVal 1 2 secs with
                    | some h, some mi, some sec =>
                      if h ≤ 23 ∧ mi ≤ 59 ∧ sec ≤ 59 then
                        some (dateKey y mo d h mi sec)
                      else none
                    | _, _, _ => none)
                | _ => none)
            else none
          | _, _, _ => none)
      | _ => none)
  | _ => none

/-- Sort key for the primary sort: the parsed date
(`key=lambda msg: datetime.strptime(msg['date'], DATE_FORMAT_MESSAGES)`). -/
def msgKey (m : Msg) : Nat := (parseDateMessages m.date).getD 0

/-- The two-stage sort of `get_messages`: CPython's `list.sort` computes all
keys before moving any element, so a key error leaves the list unchanged and
the bare `except` then sorts the whole list by the raw `date` strings.  Net
effect: if every date parses, sort by parsed date; otherwise sort the whole
list by raw string comparison.  `List.insertionSort` is extensionally the
same function as Python's stable ascending sort for a total preorder. -/
def sortMessages (msgs : List Msg) : List Msg :=
  if msgs.all (fun m => (parseDateMessages m.date).isSome) then
    List.insertionSort (fun a b => msgKey a ≤ msgKey b) msgs
  else
    List.insertionSort (fun a b => pyLe a.date b.date = true) msgs

/-- Body shapes `self.get` can hand back to `get_messages`: a plain-string
body or a message array. -/
inductive FetchResult where
  | strBody (s : String)
  | msgs (l : List Msg)

/-- `get_messages(search_string, severity)`.

`marker` is `self.message_marker_date` (`none` when unset or falsy), `fetch`
models `self.get(path)` with `.error` for a raised request.  The path is
built exactly as in the source; a plain-string body is replaced by `[]`; a
failed fetch leaves the initial `[]`. -/
def get_messages (marker : Option Nat)
    (fetch : String → Except Unit FetchResult)
    (search severity : Option String) : List Msg :=
  match marker with
  | none => []
  | some d =>
    let path := "/message-markers/" ++ toString d ++ "/messages"
    let path := match search with
      | some s => path ++ "?search-string=" ++ s
      | none => path
    let path := match severity with
      | some sv => path ++
          (match search with | some _ => "&" | none => "?") ++ "severity=" ++ sv
      | none => path
    match fetch path with
    | .error _ => []
    | .ok (.strBody _) => []
    | .ok (.msgs l) => sortMessages l

/-- C7: the list returned by `get_messages` is a permutation of the fetched
messages; when every message date parses under `%d-%b-%Y %H:%M:%S`, it is
sorted ascending by parsed date; when any date fails to parse, the whole
list is instead sorted by raw string comparison of the `date` field — never
a mixed sort. -/
theorem get_messages_sorted (d : Nat) (search severity : Option String)
    (fetch : String → Except Unit FetchResult) (msgs : List Msg)
    (hfetch : ∀ path, fetch path = .ok (.msgs msgs)) :
    (get_messages (some d) fetch search severity).Perm msgs ∧
    ((∀ m ∈ msgs, (parseDateMessages m.date).isSome) →
      (get_messages (some d) fetch search severity).Sorted
        (fun a b => msgKey a ≤ msgKey b)) ∧
    ((∃ m ∈ msgs, parseDateMessages m.date = none) →
      get_messages (some d) fetch search severity =
        List.insertionSort (fun a b => pyLe a.date b.date = true) msgs ∧
      (get_messages (some d) fetch search severity).Sorted
        (fun a b => pyLe a.date b.date = true)) := by
  have hred : get_messages (some d) fetch search severity = sortMessages msgs := by
    simp only [get_messages, hfetch]
  rw [hred]
  refine ⟨?_, ?_, ?_⟩
  · simp only [sortMessages]
    split
    · exact List.perm_insertionSort _ msgs
    · exact List.perm_insertionSort _ msgs
  · intro hall
    rw [sortMessages, if_pos (by
      rw [List.all_eq_true]
      intro m hm
      simpa using hall m hm)]
    haveI : IsTotal Msg (fun a b => msgKey a ≤ msgKey b) :=
      ⟨fun a b => Nat.le_total _ _⟩
    haveI : IsTrans Msg (fun a b => msgKey a ≤ msgKey b) :=
      ⟨fun _ _ _ => Nat.le_trans⟩
    exact List.sorted_insertionSort _ msgs
  · intro hbad
    have hcond : ¬ (msgs.all (fun m => (parseDateMessages m.date).isSome)
        = true) := by
      rw [List.all_eq_true]
      push_neg
      obtain ⟨m, hm, hnone⟩ := hbad
      exact ⟨m, hm, by simp [hnone]⟩
    rw [sortMessages, if_neg hcond]
    haveI : IsTotal Msg (fun a b => pyLe a.date b.date = true) :=
      ⟨fun a b => pyLe_total a.date b.date⟩
    haveI : IsTrans Msg (fun a b => pyLe a.date b.date = true) :=
      ⟨fun a b c => pyLe_trans a.date b.date c.date⟩
    exact ⟨rfl, List.sorted_insertionSort _ msgs⟩

/-- C7 witness: three messages, one with an unparsable date — the result is
the whole list sorted by raw string order (here: by the raw `date` field). -/
theorem get_messages_sorted_witness :
    (get_messages (some 5)
        (fun _ => .ok (.msgs
          [⟨"02-Jan-2024 10:00:00", "INFO", "b", none⟩,
           ⟨"not a date", "ERROR", "c", none⟩,
           ⟨"01-Jan-2024 10:00:00", "INFO", "a", none⟩])) none none).Perm
      [⟨"02-Jan-2024 10:00:00", "INFO", "b", none⟩,
       ⟨"not a date", "ERROR", "c", none⟩,
       ⟨"01-Jan-2024 10:00:00", "INFO", "a", none⟩] ∧
    get_messages (some 5)
        (fun _ => .ok (.msgs
          [⟨"02-Jan-2024 10:00:00", "INFO", "b", none⟩,
           ⟨"not a date", "ERROR", "c", none⟩,
           ⟨"01-Jan-2024 10:00:00", "INFO", "a", none⟩])) none none =
      List.insertionSort (fun a b => pyLe a.date b.date = true)
        [⟨"02-Jan-2024 10:00:00", "INFO", "b", none⟩,
         ⟨"not a date", "ERROR", "c", none⟩,
         ⟨"01-Jan-2024 10:00:00", "INFO", "a", none⟩] := by
  obtain ⟨h1, -, h3⟩ := get_messages_sorted 5 none none
    (fun _ => .ok (.msgs
      [⟨"02-Jan-2024 10:00:00", "INFO", "b", none⟩,
       ⟨"not a date", "ERROR", "c", none⟩,
       ⟨"01-Jan-2024 10:00:00", "INFO", "a", none⟩]))
    [⟨"02-Jan-2024 10:00:00", "INFO", "b", none⟩,
     ⟨"not a date", "ERROR", "c", none⟩,
     ⟨"01-Jan-2024 10:00:00", "INFO", "a", none⟩] (fun _ => rfl)
  exact ⟨h1, (h3 ⟨⟨"not a date", "ERROR", "c", none⟩, by simp, by decide⟩).1⟩

/-- C10: `get_messages` is total at the public interface: an unset message
marker, a failed fetch, and a plain-string body each yield `[]`; a message
array yields a permutation of it (the sorted list).  In the embedding the
function returns a plain `List Msg` for every oracle — no error escapes. -/
theorem get_messages_total (search severity : Option String) :
    (∀ fetch : String → Except Unit FetchResult,
      get_messages none fetch search severity = []) ∧
    (∀ d : Nat, get_messages (some d) (fun _ => .error ()) search severity
      = []) ∧
    (∀ (d : Nat) (body : String),
      get_messages (some d) (fun _ => .ok (.strBody body)) search severity
        = []) ∧
    (∀ (d : Nat) (msgs : List Msg),
      (get_messages (some d) (fun _ => .ok (.msgs msgs)) search severity).Perm
        msgs) := by
  refine ⟨fun fetch => rfl, fun d => by simp [get_messages],
    fun d body => by simp [get_messages], fun d msgs => ?_⟩
  have hred : get_messages (some d) (fun _ => .ok (.msgs msgs)) search severity
      = sortMessages msgs := by
    simp only [get_messages]
  rw [hred, sortMessages]
  split
  · exact List.perm_insertionSort _ msgs
  · exact List.perm_insertionSort _ msgs

/-! ## Log-file error extraction (`get_errors_from_log`)

Lines of the log file are modelled as character lists *without* the trailing
newline; the source's `for line in logfile` yields lines *with* it, which the
embedding re-adds where the source stores `current_entry = line`.  The
comparison value `datetime.fromtimestamp(start_time)` is passed in directly
as a `dateKey`-encoded timestamp (`none` when `start_time` is `None` or
falsy), since `fromtimestamp` is a strictly monotone environment-dependent
conversion outside the program. -/

/-- `EXCLUDED_LOG_MESSAGES`. -/
def EXCLUDED_LOG_MESSAGES : List (List Char) :=
  ["Registry key could not be read: The system cannot find the file specified".toList,
   "The compiler is already defined".toList,
   "EpexCompilerServiceImpl - Compilation failed".toList]

/-- Positional shape of the timestamp prefix regex
`^\d{4}-\d{2}-\d{2} \d{2}:\d{2}:\d{2}`. -/
def tsShape : List (Char → Bool) :=
  [Char.isDigit, Char.isDigit, Char.isDigit, Char.isDigit, (· == '-'),
   Char.isDigit, Char.isDigit, (· == '-'), Char.isDigit, Char.isDigit,
   (· == ' '), Char.isDigit, Char.isDigit, (· == ':'), Char.isDigit,
   Char.isDigit, (· == ':'), Char.isDigit, Char.isDigit]

/-- Python's substring test `pat in l`. -/
def containsSub (pat : List Char) : List Char → Bool
  | [] => decide (pat = [])
  | c :: rest => pat.isPrefixOf (c :: rest) || containsSub pat rest

/-- `timestamp_pattern.match(line)`: the matched 19-character prefix, or
`none`. -/
def matchTimestamp (l : List Char) : Option (List Char) :=
  let pre := l.take 19
  if pre.length = 19 ∧ (pre.zip tsShape).all (fun cp => cp.2 cp.1) then
    some pre
  else none

/-- `datetime.strptime(timestamp_str, '%Y-%m-%d %H:%M:%S')` applied to a
regex-matched prefix; `none` models the uncaught `ValueError` for
out-of-range fields. -/
def parseLogTs (pre : List Char) : Option Nat :=
  match pre with
  | [y1, y2, y3, y4, _, m1, m2, _, d1, d2, _, h1, h2, _, mi1, mi2, _, s1, s2] =>
    let v2 := fun (a b : Char) => (a.toNat - 48) * 10 + (b.toNat - 48)
    let y := v2 y1 y2 * 100 + v2 y3 y4
    let mo := v2 m1 m2
    let d := v2 d1 d2
    let h := v2 h1 h2
    let mi := v2 mi1 mi2
    let s := v2 s1 s2
    if 1 ≤ mo ∧ mo ≤ 12 ∧ 1 ≤ d ∧ d ≤ 31 ∧ h ≤ 23 ∧ mi ≤ 59 ∧ s ≤ 59 then
      some (dateKey y mo d h mi s)
    else none
  | _ => none

/-- `is_recent = not start_time or timestamp > datetime.fromtimestamp(start_time)`. -/
def isRecent (start : Option Nat) (ts : Nat) : Bool :=
  match start with
  | none => true
  | some st => decide (st < ts)

/-- Python `str.strip()` at the character level. -/
def trimC (l : List Char) : List Char :=
  ((l.dropWhile Char.isWhitespace).reverse.dropWhile Char.isWhitespace).reverse

/-- Flush the candidate entry (`if current_entry: log_entries.append(
current_entry.strip())`). -/
def flushEntry : Option (List Char) → List (List Char)
  | some e => [trimC e]
  | none => []

/-- The line loop of `get_errors_from_log`: a timestamp-prefixed line flushes
the current candidate and starts a new one exactly when it is recent,
contains `ERROR` case-insensitively and matches no excluded message; other
lines are appended (stripped) to the current candidate if one is open.
`.error` models the uncaught `ValueError` when a regex-matched prefix fails
`strptime`. -/
def collectEntries (start : Option Nat) (cur : Option (List Char)) :
    List (List Char) → Except Unit (List (List Char))
  | [] => .ok (flushEntry cur)
  | line :: rest =>
    match matchTimestamp line with
    | some pre =>
      (match parseLogTs pre with
        | none => .error ()
        | some ts =>
          let is_error := containsSub "ERROR".toList (line.map Char.toUpper)
          let is_not_excluded :=
            !(EXCLUDED_LOG_MESSAGES.any (fun bad => containsSub bad line))
          let cur2 := if (is_error && isRecent start ts && is_not_excluded)
              = true then some (line ++ ['\n'])
            else none
          (collectEntries start cur2 rest).map
            (fun es => flushEntry cur ++ es))
    | none =>
      match cur with
      | some e => collectEntries start (some (e ++ trimC line)) rest
      | none => collectEntries start none rest

/-- The cleaning pass: drop empty and stack-trace (`at `) lines, join the
rest with `"\n    "`. -/
def cleanEntry (e : List Char) : List Char :=
  let ls := ((splitOnC '\n' (trimC e)).map trimC).filter
    (fun l => decide (l ≠ []) && !("at ".toList.isPrefixOf l))
  List.intercalate "\n    ".toList ls

/-- `get_errors_from_log(start_time)`: empty when the log file is absent,
otherwise the collected entries, cleaned. -/
def get_errors_from_log (fileExists : Bool) (start : Option Nat)
    (lines : List (List Char)) : Except Unit (List (List Char)) :=
  if fileExists then (collectEntries start none lines).map (·.map cleanEntry)
  else .ok []

theorem collectEntries_nil (start : Option Nat) (cur : Option (List Char)) :
    collectEntries start cur [] = .ok (flushEntry cur) := by
  rw [collectEntries]

theorem collectEntries_cons (start : Option Nat) (cur : Option (List Char))
    (line : List Char) (rest : List (List Char)) :
    collectEntries start cur (line :: rest) =
      match matchTimestamp line with
      | some pre =>
        (match parseLogTs pre with
          | none => .error ()
          | some ts =>
            (collectEntries start
              (if (containsSub "ERROR".toList (line.map Char.toUpper) &&
                    isRecent start ts &&
                    !(EXCLUDED_LOG_MESSAGES.any (fun bad => containsSub bad line)))
                  = true then some (line ++ ['\n'])
                else none) rest).map (fun es => flushEntry cur ++ es))
      | none =>
        match cur with
        | some e => collectEntries start (some (e ++ trimC line)) rest
        | none => collectEntries start none rest := rfl

/-- The loop result depends on the start time only through `isRecent` at the
timestamps actually occurring in the log. -/
theorem collectEntries_congr (start1 start2 : Option Nat)
    (lines : List (List Char))
    (h : ∀ line ∈ lines, ∀ pre ts, matchTimestamp line = some pre →
      parseLogTs pre = some ts → isRecent start1 ts = isRecent start2 ts) :
    ∀ cur, collectEntries start1 cur lines = collectEntries start2 cur lines := by
  induction lines with
  | nil =>
    intro cur
    rw [collectEntries_nil, collectEntries_nil]
  | cons line rest ih =>
    intro cur
    have hrest : ∀ l ∈ rest, ∀ pre ts, matchTimestamp l = some pre →
        parseLogTs pre = some ts → isRecent start1 ts = isRecent start2 ts :=
      fun l hl => h l (by simp [hl])
    rw [collectEntries_cons, collectEntries_cons]
    cases hm : matchTimestamp line with
    | none =>
      cases cur with
      | none => exact ih hrest none
      | some e => exact ih hrest (some (e ++ trimC line))
    | some pre =>
      dsimp only
      cases hp : parseLogTs pre with
      | none => rfl
      | some ts =>
        dsimp only
        rw [h line (by simp) pre ts hm hp, ih hrest]

/-- C8: the scenario of the spec.  A log with an ERROR entry at `t=10`
followed by a continuation line, an excluded INFO entry at `t=11` and an
ERROR entry at `t=12`, queried with any start time before `t=10`, yields
exactly the first entry with its continuation attached and the third entry:
timestamp lines group with their following non-timestamp lines, and an entry
is kept exactly when it is recent, contains `ERROR` case-insensitively and
matches no excluded message. -/
theorem log_error_extraction (s : Nat)
    (h : s < dateKey 2024 1 1 0 0 10) :
    get_errors_from_log true (some s)
      ["2024-01-01 00:00:10 ERROR something failed".toList,
       "  continuation detail".toList,
       "2024-01-01 00:00:11 INFO The compiler is already defined".toList,
       "2024-01-01 00:00:12 ERROR another failure".toList] =
    .ok
      ["2024-01-01 00:00:10 ERROR something failed\n    continuation detail".toList,
       "2024-01-01 00:00:12 ERROR another failure".toList] := by
  have hkey : ∀ ts : Nat, dateKey 2024 1 1 0 0 10 ≤ ts →
      isRecent (some s) ts = isRecent none ts := by
    intro ts hts
    simp only [isRecent, decide_eq_true_eq]
    omega
  have hc := collectEntries_congr (some s) none
    ["2024-01-01 00:00:10 ERROR something failed".toList,
     "  continuation detail".toList,
     "2024-01-01 00:00:11 INFO The compiler is already defined".toList,
     "2024-01-01 00:00:12 ERROR another failure".toList]
    (by
      intro line hline pre ts hm hp
      simp only [List.mem_cons, List.not_mem_nil, or_false] at hline
      rcases hline with rfl | rfl | rfl | rfl
      · rw [show matchTimestamp
            ("2024-01-01 00:00:10 ERROR something failed".toList) =
            some ("2024-01-01 00:00:10".toList) from by decide] at hm
        injection hm with hm2
        subst hm2
        rw [show parseLogTs ("2024-01-01 00:00:10".toList) =
            some (dateKey 2024 1 1 0 0 10) from by decide] at hp
        injection hp with hp2
        subst hp2
        exact hkey _ (Nat.le_refl _)
      · rw [show matchTimestamp ("  continuation detail".toList) = none
            from by decide] at hm
        exact absurd hm (by simp)
      · rw [show matchTimestamp
            ("2024-01-01 00:00:11 INFO The compiler is already defined".toList)
            = some ("2024-01-01 00:00:11".toList) from by decide] at hm
        injection hm with hm2
        subst hm2
        rw [show parseLogTs ("2024-01-01 00:00:11".toList) =
            some (dateKey 2024 1 1 0 0 11) from by decide] at hp
        injection hp with hp2
        subst hp2
        exact hkey _ (by decide)
      · rw [show matchTimestamp
            ("2024-01-01 00:00:12 ERROR another failure".toList) =
            some ("2024-01-01 00:00:12".toList) from by decide] at hm
        injection hm with hm2
        subst hm2
        rw [show parseLogTs ("2024-01-01 00:00:12".toList) =
            some (dateKey 2024 1 1 0 0 12) from by decide] at hp
        injection hp with hp2
        subst hp2
        exact hkey _ (by decide))
  simp only [get_errors_from_log, if_pos rfl]
  rw [hc none]
  decide

/-- C8 witness: start time `t=9` (strictly before the first entry). -/
theorem log_error_extraction_witness :
    get_errors_from_log true (some (dateKey 2024 1 1 0 0 9))
      ["2024-01-01 00:00:10 ERROR something failed".toList,
       "  continuation detail".toList,
       "2024-01-01 00:00:11 INFO The compiler is already defined".toList,
       "2024-01-01 00:00:12 ERROR another failure".toList] =
    .ok
      ["2024-01-01 00:00:10 ERROR something failed\n    continuation detail".toList,
       "2024-01-01 00:00:12 ERROR another failure".toList] :=
  log_error_extraction (dateKey 2024 1 1 0 0 9) (by decide)

/-! ## Preference application (`_apply_preferences`, batch/retry part)

The batch push and each individual push are an oracle
`put : List Preference → Except String Unit` modelling
`self.put('preferences', ...)`. -/

/-- `{'preferenceName': ..., 'preferenceValue': ...}`. -/
structure Preference where
  preferenceName : String
  preferenceValue : String
deriving Repr, DecidableEq

/-- Did an `Except` computation succeed? -/
def exceptOk {ε α : Type} : Except ε α → Bool
  | .ok _ => true
  | .error _ => false

/-- The `# apply preferences` block of `_apply_preferences`: try the whole
batch; on any failure retry each preference individually inside its own
`try/except`, counting successes and logging (collecting) the failed ones.
Both handlers are bare `except` blocks, so no exception reaches the caller:
the result is always `.ok (batchSucceeded, successfullyApplied, failed)`. -/
def apply_preferences (put : List Preference → Except String Unit)
    (preferences : List Preference) :
    Except String (Bool × Nat × List Preference) :=
  match put preferences with
  | .ok _ => .ok (true, 0, [])
  | .error _ =>
    let step := fun (acc : Nat × List Preference) (pref : Preference) =>
      match put [pref] with
      | .ok _ => (acc.1 + 1, acc.2)
      | .error _ => (acc.1, acc.2 ++ [pref])
    let r := preferences.foldl step (0, [])
    .ok (false, r.1, r.2)

theorem filter_partition_length {α : Type} (p : α → Bool) (l : List α) :
    (l.filter p).length + (l.filter fun a => !p a).length = l.length := by
  induction l with
  | nil => rfl
  | cons x xs ih =>
    by_cases hx : p x <;> simp [List.filter_cons, hx, ← ih] <;> omega

theorem apply_preferences_foldl (put : List Preference → Except String Unit) :
    ∀ (prefs : List Preference) (n : Nat) (fs : List Preference),
    prefs.foldl (fun (acc : Nat × List Preference) (pref : Preference) =>
        match put [pref] with
        | .ok _ => (acc.1 + 1, acc.2)
        | .error _ => (acc.1, acc.2 ++ [pref])) (n, fs) =
      (n + (prefs.filter fun p => exceptOk (put [p])).length,
       fs ++ prefs.filter fun p => !exceptOk (put [p])) := by
  intro prefs
  induction prefs with
  | nil =>
    intro n fs
    simp
  | cons p ps ih =>
    intro n fs
    rw [List.foldl_cons]
    cases hp : put [p] with
    | ok u =>
      have hok : exceptOk (put [p]) = true := by rw [hp]; rfl
      rw [ih (n + 1) fs]
      simp [List.filter_cons, hok]
      omega
    | error e =>
      have hbad : exceptOk (put [p]) = false := by rw [hp]; rfl
      rw [ih n (fs ++ [p])]
      simp [List.filter_cons, hbad]

/-- C9: the applier first attempts the whole batch in one request; when that
succeeds no individual request is made.  When the batch fails, every one of
the `N` preferences is retried individually: the successes are counted, the
failures collected (reported), success count plus failure count is `N`, and
in every case the result is `.ok` — no exception reaches the caller no
matter how many individual items fail. -/
theorem apply_preferences_spec (put : List Preference → Except String Unit)
    (preferences : List Preference) :
    apply_preferences put preferences =
      (match put preferences with
        | .ok _ => .ok (true, 0, [])
        | .error _ =>
          .ok (false,
            (preferences.filter fun p => exceptOk (put [p])).length,
            preferences.filter fun p => !exceptOk (put [p]))) ∧
    exceptOk (apply_preferences put preferences) = true ∧
    (preferences.filter fun p => exceptOk (put [p])).length +
        (preferences.filter fun p => !exceptOk (put [p])).length =
      preferences.length := by
  have hmain : apply_preferences put preferences =
      (match put preferences with
        | .ok _ => .ok (true, 0, [])
        | .error _ =>
          .ok (false,
            (preferences.filter fun p => exceptOk (put [p])).length,
            preferences.filter fun p => !exceptOk (put [p]))) := by
    rw [apply_preferences]
    cases hb : put preferences with
    | ok u => rfl
    | error e =>
      dsimp only
      rw [apply_preferences_foldl put preferences 0 []]
      simp
  refine ⟨hmain, ?_, filter_partition_length _ _⟩
  rw [hmain]
  cases put preferences with
  | ok u => rfl
  | error e => rfl

end BtcEmbedded
